import Mathlib

/-!
Verification development for the plugin-discovery pipeline
(`findPluginSpecs` and its helpers).

Modelling conventions
* An RxJS observable that produces finitely many values is embedded as the
  `List` of the values it emits, in emission order.  `mergeMap` with an
  array-valued projection is list `bind`; `toArray()` followed by
  `mergeMap(array => array)` (the `bufferAllResults` barrier) makes the
  stages before and after it separate phases of one sequential function.
* `Observable.defer(...).shareReplay()` is modelled by the value it caches
  plus a count of how many times the deferred producer runs for a given
  number of subscribers.
* The configuration service is one shared mutable object in the source; the
  model threads its value through the phases explicitly.  The collaborator
  routines `extendConfigService`, `disableConfigExtension` and
  `config.get("pkg.version")` live outside this excerpt, so they are taken
  as function parameters (a `Collaborators` bundle): `extendOne` returns the
  updated configuration value together with the deprecation messages the
  routine reported through its callback, `disableOne` returns the updated
  configuration value.
* Side effects that the claims talk about (extension, classification,
  disabling) are recorded in an explicit event trace.
-/

namespace PluginDiscovery

/-- A plugin spec as `find_plugin_specs.js` consumes it: `getId()`,
`getPath()`, `isVersionCompatible(version)` and `isEnabled(config)`.
`C` is the type of configuration-service values. -/
structure PluginSpec (C : Type) where
  id : String
  path : String
  isVersionCompatible : String → Bool
  isEnabled : C → Bool

/-- A plugin pack; `getPluginSpecs()` is the `specs` field. -/
structure Pack (C : Type) where
  specs : List (PluginSpec C)

/-- A result object of `createPack$`: a plain `{ error?, pack? }` record.
For an error result `pack` is absent; for a success result `error` is
absent. -/
structure PackResult (C E : Type) where
  error : Option E
  pack : Option (Pack C)

/-- The external collaborator routines used by `findPluginSpecs`, kept
abstract: `extendOne` models `extendConfigService(spec, config, settings,
logDeprecation)` (the constant `settings` argument is absorbed into the
function; the messages passed to `logDeprecation` are returned),
`disableOne` models `disableConfigExtension(spec, config)`, and
`getPkgVersion` models `config.get("pkg.version")`. -/
structure Collaborators (C : Type) where
  extendOne : PluginSpec C → C → C × List String
  disableOne : PluginSpec C → C → C
  getPkgVersion : C → String

/-- A result of the package locator (`createPackageJsonAtPath$` /
`createPackageJsonsInDirectory$`): `{error}` or `{packageJson}` (the
descriptor is reduced to the `directoryPath` that the dedup key reads).
The `other` constructor is the defensive fallback shape; its tag models
JavaScript object identity (one fresh object per emission). -/
inductive FindResult where
  | err (message : String)
  | packageJson (directoryPath : String)
  | other (tag : Nat)
deriving DecidableEq

/-- The value returned by `getDistinctKeyForFindResult`: a string (an error
message or a canonicalized path) or the result object itself. -/
inductive DistinctKey where
  | str (s : String)
  | self (r : FindResult)
deriving DecidableEq

/-- `getDistinctKeyForFindResult`, with `realpathSync` abstracted as the
function argument `realpath`: errors are distinct by message, descriptor
results by the canonicalized directory path, anything else by itself. -/
def getDistinctKeyForFindResult (realpath : String → String) :
    FindResult → DistinctKey
  | .err message => .str message
  | .packageJson directoryPath => .str (realpath directoryPath)
  | r => .self r

/-- Worker for `distinctBy`: drops every element whose key was already
seen, keeping first occurrences. -/
def distinctByGo {α κ : Type} [DecidableEq κ] (key : α → κ)
    (seen : List κ) : List α → List α
  | [] => []
  | x :: xs =>
    if key x ∈ seen then distinctByGo key seen xs
    else x :: distinctByGo key (key x :: seen) xs

/-- The Rx `.distinct(keySelector)` operator: only the first element with
each distinct key passes through. -/
def distinctBy {α κ : Type} [DecidableEq κ] (key : α → κ)
    (xs : List α) : List α :=
  distinctByGo key [] xs

/-- The deduplicated locator stream `packageJson$` (before the output
projection): the merged locator results, deduplicated by
`getDistinctKeyForFindResult`. -/
def dedupFindResults (realpath : String → String)
    (xs : List FindResult) : List FindResult :=
  distinctBy (getDistinctKeyForFindResult realpath) xs

/-- `Observable.merge` of `createPackageJsonAtPath$` over the configured
plugin paths and `createPackageJsonsInDirectory$` over the configured scan
directories, the two creators abstracted as functions from a path to the
results they emit. -/
def mergedLocator (perPath perDir : String → List FindResult)
    (paths scanDirs : List String) : List FindResult :=
  paths.flatMap perPath ++ scanDirs.flatMap perDir

/-- The public `packageJson$` channel projection: emit `result.packageJson`
when present (`mergeMap(result => result.packageJson ? [result.packageJson]
: [])`), represented by its directory path. -/
def packageJsonChannel (rs : List FindResult) : List String :=
  rs.flatMap fun r =>
    match r with
    | .packageJson d => [d]
    | _ => []

/-- Spec collection from pack results:
`mergeMap(({ pack }) => pack ? pack.getPluginSpecs() : [])`. -/
def collectSpecs {C E : Type} (rs : List (PackResult C E)) :
    List (PluginSpec C) :=
  rs.flatMap fun r =>
    match r.pack with
    | some p => p.specs
    | none => []

/-- One step of `groupSpecsById`: the JavaScript `Map` either pushes the
spec onto the array stored under its id or inserts a fresh singleton array
at the end (insertion order). -/
def addToGroup {C : Type} (id : String) (s : PluginSpec C) :
    List (String × List (PluginSpec C)) → List (String × List (PluginSpec C))
  | [] => [(id, [s])]
  | (i, g) :: rest =>
    if i = id then (i, g ++ [s]) :: rest
    else (i, g) :: addToGroup id s rest

/-- `groupSpecsById(specs)`: a `Map` from id to the specs carrying it, as
an insertion-ordered association list. -/
def groupSpecsById {C : Type} (specs : List (PluginSpec C)) :
    List (String × List (PluginSpec C)) :=
  specs.foldl (fun m s => addToGroup s.id s m) []

/-- Array.prototype.join with a newline separator, as used to build the
conflict error message. -/
def joinLines : List String → String
  | [] => ""
  | [x] => x
  | x :: y :: xs => x ++ "\n" ++ joinLines (y :: xs)

/-- The message of the error thrown on a duplicate plugin id (the source
spells "Multple"). -/
def duplicateIdError {C : Type} (id : String)
    (specs : List (PluginSpec C)) : String :=
  "Multple plugins found with the id \"" ++ id ++ "\":\n" ++
    joinLines (specs.map fun s => "  - " ++ id ++ " at " ++ s.path)

/-- The conflict scan of `extendConfig$`: the `for (const [id, specs] of
groupSpecsById(allSpecs))` loop throws at the first group holding more than
one spec. -/
def findConflict {C : Type}
    (groups : List (String × List (PluginSpec C))) :
    Option (String × List (PluginSpec C)) :=
  groups.find? fun g => g.2.length > 1

/-- The `{ spec, deprecations }` record produced for each spec by the
config-extension stage; a deprecation entry is the `{ spec, message }`
object pushed by the logging callback. -/
structure ExtendedItem (C : Type) where
  spec : PluginSpec C
  deprecations : List (PluginSpec C × String)

/-- The record produced by the classification stage for each spec
(the object literal of the `.map` after the first barrier). -/
structure ClassifiedResult (C : Type) where
  config : C
  spec : PluginSpec C
  deprecations : List (PluginSpec C × String)
  enabledSpecs : List (PluginSpec C)
  disabledSpecs : List (PluginSpec C)
  invalidVersionSpecs : List (PluginSpec C)

/-- An observable side effect of the run, recorded with the id of the spec
concerned: an `extendConfigService` call, an enablement evaluation, or a
`disableConfigExtension` call. -/
inductive RunEvent where
  | extended (id : String)
  | classified (id : String)
  | disabled (id : String)
deriving DecidableEq

/-- Pipeline stage of an event, for stating the barrier ordering:
extension happens in stage 0, enablement classification in stage 1,
disabling in stage 2. -/
def eventStage : RunEvent → Nat
  | .extended _ => 0
  | .classified _ => 1
  | .disabled _ => 2

/-- The config-extension phase (`mergeMap(async spec => ...)`): invoke
`extendConfigService` for each spec in turn against the shared
configuration, collecting the `{ spec, deprecations }` records and the
extension events. -/
def extendPhase {C : Type} (k : Collaborators C) :
    C → List (PluginSpec C) → C × List (ExtendedItem C) × List RunEvent
  | c, [] => (c, [], [])
  | c, s :: rest =>
    let step := k.extendOne s c
    let tail := extendPhase k step.1 rest
    (tail.1,
     ⟨s, step.2.map fun m => (s, m)⟩ :: tail.2.1,
     RunEvent.extended s.id :: tail.2.2)

/-- Whether a spec comes out enabled against a given configuration value:
`isRightVersion && spec.isEnabled(config)`. -/
def specEnabled {C : Type} (k : Collaborators C) (config : C)
    (s : PluginSpec C) : Bool :=
  s.isVersionCompatible (k.getPkgVersion config) && s.isEnabled config

/-- The classification `.map` after the first `bufferAllResults` barrier:
compute `isRightVersion` and `enabled` against the (by now fully extended)
configuration and package the result. -/
def classifyOne {C : Type} (k : Collaborators C) (config : C)
    (item : ExtendedItem C) : ClassifiedResult C :=
  let isRightVersion := item.spec.isVersionCompatible (k.getPkgVersion config)
  let enabled := isRightVersion && item.spec.isEnabled config
  { config := config
    spec := item.spec
    deprecations := item.deprecations
    enabledSpecs := if enabled then [item.spec] else []
    disabledSpecs := if enabled then [] else [item.spec]
    invalidVersionSpecs := if isRightVersion then [] else [item.spec] }

/-- The inner loop of the `.do` after the second barrier: call
`disableConfigExtension` for every spec of one record's `disabledSpecs`. -/
def disableSpecs {C : Type} (k : Collaborators C) :
    C → List (PluginSpec C) → C × List RunEvent
  | c, [] => (c, [])
  | c, s :: rest =>
    let tail := disableSpecs k (k.disableOne s c) rest
    (tail.1, RunEvent.disabled s.id :: tail.2)

/-- The `.do` stage after the second `bufferAllResults` barrier: for each
classified record, disable every spec in its `disabledSpecs`. -/
def disablePhase {C : Type} (k : Collaborators C) :
    C → List (ClassifiedResult C) → C × List RunEvent
  | c, [] => (c, [])
  | c, r :: rest =>
    let step := disableSpecs k c r.disabledSpecs
    let tail := disablePhase k step.1 rest
    (tail.1, step.2 ++ tail.2)

/-- What a successful run of the `extendConfig$` pipeline yields: the
classified records it emits, the final value of the shared configuration,
and the trace of side effects in the order they happened. -/
structure RunOutput (C : Type) where
  records : List (ClassifiedResult C)
  finalConfig : C
  trace : List RunEvent

/-- The `extendConfig$` pipeline on the collected pack results: collect the
specs of every pack (error results contribute none), abort with the
duplicate-id error if `groupSpecsById` holds a group of two or more,
otherwise extend the configuration with every spec, classify every spec
against the fully extended configuration (first `bufferAllResults`
barrier), then disable every disabled spec (second barrier). -/
def runExtendConfig {C E : Type} (k : Collaborators C) (config : C)
    (rs : List (PackResult C E)) : Except String (RunOutput C) :=
  let allSpecs := collectSpecs rs
  match findConflict (groupSpecsById allSpecs) with
  | some g => .error (duplicateIdError g.1 g.2)
  | none =>
    let ext := extendPhase k config allSpecs
    let records := ext.2.1.map (classifyOne k ext.1)
    let dis := disablePhase k ext.1 records
    .ok
      { records := records
        finalConfig := dis.1
        trace :=
          ext.2.2 ++
          records.map (fun r => RunEvent.classified r.spec.id) ++
          dis.2 }

/-- The `spec$` output channel: `mergeMap(result => result.enabledSpecs)`. -/
def specOutput {C : Type} (out : RunOutput C) : List (PluginSpec C) :=
  out.records.flatMap fun r => r.enabledSpecs

/-- The `disabledSpec$` output channel:
`mergeMap(result => result.disabledSpecs)`. -/
def disabledSpecOutput {C : Type} (out : RunOutput C) : List (PluginSpec C) :=
  out.records.flatMap fun r => r.disabledSpecs

/-- The `invalidVersionSpec$` output channel:
`mergeMap(result => result.invalidVersionSpecs)`. -/
def invalidVersionSpecOutput {C : Type} (out : RunOutput C) :
    List (PluginSpec C) :=
  out.records.flatMap fun r => r.invalidVersionSpecs

/-- The `deprecation$` output channel:
`mergeMap(result => result.deprecations)`. -/
def deprecationOutput {C : Type} (out : RunOutput C) :
    List (PluginSpec C × String) :=
  out.records.flatMap fun r => r.deprecations

/-- Terminal outcome of the `extendedConfig$` channel: a value emission,
the `EmptyError` that RxJS `last()` signals when its source completes
without a value, or the `TypeError` that RxJS `mergeMap` signals when the
projected value is not a valid stream input. -/
inductive ChannelOutcome (C : Type) where
  | emits (value : C)
  | emptyError
  | typeError

/-- The `extendedConfig$` output channel:
`extendConfig$.mergeMap(result => result.config).filter(Boolean).last()`.
When no record is emitted, nothing reaches `last()`, which signals
`EmptyError` on an empty source.  Otherwise `mergeMap` projects the first
record to `result.config`, the shared configuration-service object; a
plain object is not a valid RxJS stream input (not an Observable, array,
promise, or iterable), so `mergeMap` signals a `TypeError` there.  In
neither case does the channel emit a configuration value. -/
def extendedConfigOutput {C : Type} (out : RunOutput C) : ChannelOutcome C :=
  match out.records with
  | [] => ChannelOutcome.emptyError
  | _ :: _ => ChannelOutcome.typeError

/-- `isUnhandledError(error)`: the error value is present and matches
neither classification predicate. -/
def isUnhandledError {E : Type} (pDir pPack : Option E → Bool)
    (error : Option E) : Bool :=
  error.isSome && !pDir error && !pPack error

/-- The `invalidDirectoryError$` channel: `mergeMap(result =>
isInvalidDirectoryError(result.error) ? [result.error] : [])`. -/
def invalidDirectoryErrors {C E : Type} (pDir : Option E → Bool)
    (rs : List (PackResult C E)) : List (Option E) :=
  rs.flatMap fun r => if pDir r.error then [r.error] else []

/-- The `invalidPackError$` channel: `mergeMap(result =>
isInvalidPackError(result.error) ? [result.error] : [])`. -/
def invalidPackErrors {C E : Type} (pPack : Option E → Bool)
    (rs : List (PackResult C E)) : List (Option E) :=
  rs.flatMap fun r => if pPack r.error then [r.error] else []

/-- The `otherError$` channel: `mergeMap(result =>
isUnhandledError(result.error) ? [result.error] : [])`. -/
def otherErrors {C E : Type} (pDir pPack : Option E → Bool)
    (rs : List (PackResult C E)) : List (Option E) :=
  rs.flatMap fun r => if isUnhandledError pDir pPack r.error then [r.error] else []

/-- `defaultConfig(settings)`: apply `transformDeprecations` to the
settings, then `Config.withDefaultSchema` (both collaborators abstracted
as function parameters). -/
def defaultConfigModel {S C : Type} (transformDeprecations : S → S)
    (withDefaultSchema : S → C) (settings : S) : C :=
  withDefaultSchema (transformDeprecations settings)

/-- The value cached by `config$`: the caller-supplied configuration when
one is given, otherwise `defaultConfig(settings)`. -/
def configSourceModel {S C : Type} (transformDeprecations : S → S)
    (withDefaultSchema : S → C) (settings : S)
    (configToMutate : Option C) : C :=
  match configToMutate with
  | some c => c
  | none => defaultConfigModel transformDeprecations withDefaultSchema settings

/-- How many times the deferred producer of
`Observable.defer(...).shareReplay()` runs for a given number of
subscribers: never without a subscriber, once no matter how many
subscribers there are (later subscribers replay the cached value). -/
def shareReplayEvalCount (subscriberCount : Nat) : Nat :=
  match subscriberCount with
  | 0 => 0
  | _ + 1 => 1

/-- Whether `needle` occurs at the start of `hay` (on character lists). -/
def leadsWith : List Char → List Char → Bool
  | _, [] => true
  | [], _ :: _ => false
  | c :: cs, d :: ds => c = d && leadsWith cs ds

/-- Whether `needle` occurs contiguously anywhere inside `hay` (on
character lists). -/
def subOccurs (needle : List Char) : List Char → Bool
  | [] => needle.isEmpty
  | c :: cs => leadsWith (c :: cs) needle || subOccurs needle cs

/-- Whether the string `needle` occurs contiguously inside the string
`hay`; used to state that an error message names an id or a path. -/
def strNames (hay needle : String) : Bool :=
  subOccurs needle.data hay.data

/-- The value of the shared configuration once the extension phase has
merged every collected spec into it (the configuration the classification
stage reads, per the first `bufferAllResults` barrier). -/
def fullyExtendedConfig {C E : Type} (k : Collaborators C) (c : C)
    (rs : List (PackResult C E)) : C :=
  (collectSpecs rs).foldl (fun acc s => (k.extendOne s acc).1) c

/-- Reading a group out of the association list built by `groupSpecsById`
(the `Map` lookup). -/
def lookupGroup {C : Type} (m : List (String × List (PluginSpec C)))
    (id : String) : List (PluginSpec C) :=
  match m.find? (fun e => e.1 = id) with
  | some e => e.2
  | none => []

/-- A concrete collaborator bundle over natural-number configuration
values, used to run the pipeline on concrete inputs. -/
def sampleCollab : Collaborators Nat where
  extendOne := fun s c => (c + s.path.length, [s.id])
  disableOne := fun s c => c + 100 * s.id.length
  getPkgVersion := fun c => if c % 2 = 0 then "6.0.0" else "5.0.0"

/-- Concrete spec: version-compatible and enabled on any nonzero
configuration value. -/
def alphaSpec : PluginSpec Nat :=
  ⟨"alpha", "/p/alpha", fun v => v == "6.0.0", fun c => decide (0 < c)⟩

/-- Concrete spec: never version-compatible. -/
def betaSpec : PluginSpec Nat :=
  ⟨"beta", "/p/beta", fun _ => false, fun _ => true⟩

/-- A concrete pack-result list: one pack carrying two specs and one error
result. -/
def sampleResults : List (PackResult Nat String) :=
  [⟨none, some ⟨[alphaSpec, betaSpec]⟩⟩, ⟨some "boom", none⟩]

/-- Concrete spec with duplicate id (first of the "a" pair). -/
def dupA1 : PluginSpec Nat :=
  ⟨"a", "/plugins/a1", fun _ => true, fun _ => true⟩

/-- Concrete spec with duplicate id (second of the "a" pair). -/
def dupA2 : PluginSpec Nat :=
  ⟨"a", "/plugins/a2", fun _ => true, fun _ => true⟩

/-- Concrete spec with duplicate id (first of the "b" pair). -/
def dupB1 : PluginSpec Nat :=
  ⟨"b", "/plugins/b1", fun _ => true, fun _ => true⟩

/-- Concrete spec with duplicate id (second of the "b" pair). -/
def dupB2 : PluginSpec Nat :=
  ⟨"b", "/plugins/b2", fun _ => true, fun _ => true⟩

/-- A pack-result list holding one conflicting id group. -/
def dupResults2 : List (PackResult Nat String) :=
  [⟨none, some ⟨[dupA1, dupA2]⟩⟩]

/-- A pack-result list holding two conflicting id groups ("a" and "b"). -/
def dupResults4 : List (PackResult Nat String) :=
  [⟨none, some ⟨[dupA1, dupA2, dupB1, dupB2]⟩⟩]

/-- Flattening an if-guarded singleton projection over a list is filtering
the projected list (shape shared by every `mergeMap(r => p ? [x] : [])`
channel). -/
theorem flatMap_ite_proj {α β : Type} (f : α → β) (p : β → Bool)
    (rs : List α) :
    (rs.flatMap fun r => if p (f r) then [f r] else []) =
      (rs.map f).filter p := by
  induction rs with
  | nil => rfl
  | cons r rest ih =>
    by_cases h : p (f r) = true
    · simp [h, ih, List.filter_cons]
    · rw [Bool.not_eq_true] at h
      simp [h, ih, List.filter_cons]

/-- C7: the Config Source returns the caller-supplied configuration object
itself when one is given; otherwise it builds one by applying deprecation
normalization to the settings and then the default schema; and the
defer-plus-shareReplay wiring evaluates the producer at most once no matter
how many subscribers observe it. -/
theorem configSource_contract {S C : Type} (t : S → S) (w : S → C) (s : S) :
    (∀ c0 : C, configSourceModel t w s (some c0) = c0) ∧
    configSourceModel t w s none = w (t s) ∧
    (∀ n : Nat, shareReplayEvalCount n ≤ 1) := by
  refine ⟨fun c0 => rfl, rfl, fun n => ?_⟩
  cases n <;> simp [shareReplayEvalCount]

/-- Spec collection only sees pack-carrying results. -/
theorem collectSpecs_filter {C E : Type} (rs : List (PackResult C E)) :
    collectSpecs rs = collectSpecs (rs.filter fun r => r.pack.isSome) := by
  induction rs with
  | nil => rfl
  | cons r rest ih =>
    cases h : r.pack with
    | none => simpa [collectSpecs, List.filter_cons, h] using ih
    | some p => simpa [collectSpecs, List.filter_cons, h] using ih

/-- Results without packs collectively contribute no specs. -/
theorem collectSpecs_allNone {C E : Type} (rs : List (PackResult C E))
    (hall : ∀ r ∈ rs, r.pack = none) : collectSpecs rs = [] := by
  induction rs with
  | nil => rfl
  | cons r rest ih =>
    have h1 : r.pack = none := hall r (by simp)
    have h2 := ih fun r2 hr2 => hall r2 (by simp [hr2])
    simp [collectSpecs, h1]
    simpa [collectSpecs] using h2

/-- The `invalidDirectoryError$` channel is a filter of the error
projections. -/
theorem invalidDirectoryErrors_eq {C E : Type} (pDir : Option E → Bool)
    (rs : List (PackResult C E)) :
    invalidDirectoryErrors pDir rs = (rs.map (·.error)).filter pDir := by
  simp only [invalidDirectoryErrors]
  exact flatMap_ite_proj (fun r => r.error) pDir rs

/-- The `invalidPackError$` channel is a filter of the error
projections. -/
theorem invalidPackErrors_eq {C E : Type} (pPack : Option E → Bool)
    (rs : List (PackResult C E)) :
    invalidPackErrors pPack rs = (rs.map (·.error)).filter pPack := by
  simp only [invalidPackErrors]
  exact flatMap_ite_proj (fun r => r.error) pPack rs

/-- The `otherError$` channel is a filter of the error projections by
`isUnhandledError`. -/
theorem otherErrors_eq {C E : Type} (pDir pPack : Option E → Bool)
    (rs : List (PackResult C E)) :
    otherErrors pDir pPack rs =
      (rs.map (·.error)).filter (isUnhandledError pDir pPack) := by
  simp only [otherErrors]
  exact flatMap_ite_proj (fun r => r.error) (isUnhandledError pDir pPack) rs

/-- C9: a pack result that carries no pack contributes zero module specs —
the whole run is unchanged by deleting error results, and a run whose
results all lack packs succeeds with no records and empty spec channels
rather than failing. -/
theorem errorResults_contribute_nothing {C E : Type} (k : Collaborators C)
    (c : C) (rs : List (PackResult C E)) :
    collectSpecs rs = collectSpecs (rs.filter fun r => r.pack.isSome) ∧
    runExtendConfig k c rs =
      runExtendConfig k c (rs.filter fun r => r.pack.isSome) ∧
    ((∀ r ∈ rs, r.pack = none) →
      runExtendConfig k c rs =
        .ok { records := [], finalConfig := c, trace := [] } ∧
      (∀ out, runExtendConfig k c rs = .ok out →
        specOutput out = [] ∧ disabledSpecOutput out = [] ∧
        invalidVersionSpecOutput out = [])) := by
  have hc := collectSpecs_filter (C := C) (E := E) rs
  refine ⟨hc, ?_, ?_⟩
  · simp only [runExtendConfig, hc]
  · intro hall
    have hnil : collectSpecs rs = [] := collectSpecs_allNone rs hall
    constructor
    · simp [runExtendConfig, hnil, findConflict, groupSpecsById, extendPhase,
        disablePhase]
    · intro out hout
      rw [show runExtendConfig k c rs =
            .ok { records := [], finalConfig := c, trace := [] } by
          simp [runExtendConfig, hnil, findConflict, groupSpecsById, extendPhase,
            disablePhase]] at hout
      cases hout
      simp [specOutput, disabledSpecOutput, invalidVersionSpecOutput]

/-- Witness for the error-results claim at a concrete input. -/
theorem errorResults_contribute_nothing_witness :
    (∀ r ∈ [(⟨some "boom", none⟩ : PackResult Nat String)], r.pack = none) ∧
    (collectSpecs [(⟨some "boom", none⟩ : PackResult Nat String)] =
      collectSpecs
        (([(⟨some "boom", none⟩ : PackResult Nat String)]).filter
          fun r => r.pack.isSome) ∧
    runExtendConfig sampleCollab 5 [(⟨some "boom", none⟩ : PackResult Nat String)] =
      runExtendConfig sampleCollab 5
        (([(⟨some "boom", none⟩ : PackResult Nat String)]).filter
          fun r => r.pack.isSome) ∧
    ((∀ r ∈ [(⟨some "boom", none⟩ : PackResult Nat String)], r.pack = none) →
      runExtendConfig sampleCollab 5 [(⟨some "boom", none⟩ : PackResult Nat String)] =
        .ok { records := [], finalConfig := 5, trace := [] } ∧
      (∀ out,
        runExtendConfig sampleCollab 5
            [(⟨some "boom", none⟩ : PackResult Nat String)] = .ok out →
        specOutput out = [] ∧ disabledSpecOutput out = [] ∧
        invalidVersionSpecOutput out = []))) :=
  ⟨by intro r hr; simp at hr; subst hr; rfl,
   errorResults_contribute_nothing sampleCollab 5
     [(⟨some "boom", none⟩ : PackResult Nat String)]⟩

/-- C10: a null or absent error field never reaches the error channels —
`otherError$` demands a present error value on top of both predicates
failing, and the two classification channels demand nothing more than
their predicate, so they exclude absent errors exactly when the predicate
rejects an absent value. -/
theorem nullError_not_emitted {C E : Type} (pDir pPack : Option E → Bool)
    (rs : List (PackResult C E)) :
    none ∉ otherErrors pDir pPack rs ∧
    (pDir none = false → none ∉ invalidDirectoryErrors pDir rs) ∧
    (pPack none = false → none ∉ invalidPackErrors pPack rs) := by
  refine ⟨?_, ?_, ?_⟩
  · intro hmem
    rw [otherErrors_eq] at hmem
    have := List.of_mem_filter hmem
    simp [isUnhandledError] at this
  · intro hnone hmem
    rw [invalidDirectoryErrors_eq] at hmem
    have := List.of_mem_filter hmem
    rw [hnone] at this
    cases this
  · intro hnone hmem
    rw [invalidPackErrors_eq] at hmem
    have := List.of_mem_filter hmem
    rw [hnone] at this
    cases this

/-- Witness for the null-error claim at a concrete input. -/
theorem nullError_not_emitted_witness :
    ((fun (e : Option Bool) => e == some true) none = false →
      none ∉ invalidDirectoryErrors (C := Nat)
        (fun e => e == some true)
        [⟨none, none⟩, ⟨some true, none⟩]) ∧
    none ∉ otherErrors (C := Nat)
      (fun (e : Option Bool) => e == some true)
      (fun (e : Option Bool) => e == some false)
      [⟨none, none⟩, ⟨some true, none⟩] :=
  ⟨(nullError_not_emitted (fun e => e == some true) (fun e => e == some false)
      [⟨none, none⟩, ⟨some true, none⟩]).2.1,
   (nullError_not_emitted (fun e => e == some true) (fun e => e == some false)
      [⟨none, none⟩, ⟨some true, none⟩]).1⟩

/-- C8: each of the three error channels emits exactly the error
projections its predicate accepts (`otherError$` accepting a present error
matching neither supplied predicate); when the two predicates are mutually
exclusive, every present error satisfies exactly one of the three
classifications. -/
theorem error_routing {C E : Type} (pDir pPack : Option E → Bool)
    (rs : List (PackResult C E))
    (hdisj : ∀ e : E, ¬(pDir (some e) = true ∧ pPack (some e) = true)) :
    invalidDirectoryErrors pDir rs = (rs.map (·.error)).filter pDir ∧
    invalidPackErrors pPack rs = (rs.map (·.error)).filter pPack ∧
    otherErrors pDir pPack rs =
      (rs.map (·.error)).filter (isUnhandledError pDir pPack) ∧
    (∀ r ∈ rs, ∀ e : E, r.error = some e →
      ((pDir (some e) = true ∧ pPack (some e) = false ∧
          isUnhandledError pDir pPack (some e) = false) ∨
       (pDir (some e) = false ∧ pPack (some e) = true ∧
          isUnhandledError pDir pPack (some e) = false) ∨
       (pDir (some e) = false ∧ pPack (some e) = false ∧
          isUnhandledError pDir pPack (some e) = true))) := by
  refine ⟨invalidDirectoryErrors_eq pDir rs, invalidPackErrors_eq pPack rs,
    otherErrors_eq pDir pPack rs, ?_⟩
  intro r _ e _
  cases hd : pDir (some e) with
  | true =>
    cases hp : pPack (some e) with
    | true => exact absurd ⟨hd, hp⟩ (hdisj e)
    | false => exact Or.inl ⟨rfl, rfl, by simp [isUnhandledError, hd]⟩
  | false =>
    cases hp : pPack (some e) with
    | true => exact Or.inr (Or.inl ⟨rfl, rfl, by simp [isUnhandledError, hp]⟩)
    | false =>
      exact Or.inr (Or.inr ⟨rfl, rfl, by simp [isUnhandledError, hd, hp]⟩)

/-- Witness for the error-routing claim at a concrete input. -/
theorem error_routing_witness :
    (∀ e : Bool, ¬((fun (o : Option Bool) => o == some true) (some e) = true ∧
        (fun (o : Option Bool) => o == some false) (some e) = true)) ∧
    invalidDirectoryErrors (C := Nat) (fun o => o == some true)
        [⟨some true, none⟩, ⟨some false, none⟩, ⟨none, none⟩] =
      (([⟨some true, none⟩, ⟨some false, none⟩,
          (⟨none, none⟩ : PackResult Nat Bool)]).map (·.error)).filter
        (fun o => o == some true) :=
  ⟨by decide,
   (error_routing (fun o => o == some true) (fun o => o == some false)
      [⟨some true, none⟩, ⟨some false, none⟩, ⟨none, none⟩] (by decide)).1⟩

/-- Deduplication emits a sub-sequence of its input: duplicates are simply
dropped, nothing else is produced. -/
theorem distinctByGo_sublist {α κ : Type} [DecidableEq κ] (key : α → κ) :
    ∀ (xs : List α) (seen : List κ),
      List.Sublist (distinctByGo key seen xs) xs := by
  intro xs
  induction xs with
  | nil => intro seen; simp [distinctByGo]
  | cons x rest ih =>
    intro seen
    by_cases h : key x ∈ seen
    · rw [distinctByGo, if_pos h]
      exact List.Sublist.cons x (ih seen)
    · rw [distinctByGo, if_neg h]
      exact List.Sublist.cons₂ x (ih (key x :: seen))

/-- The elements of the deduplicated stream holding a given key are the
first input occurrence of that key (provided the key was not pre-seen). -/
theorem distinctByGo_filter {α κ : Type} [DecidableEq κ] (key : α → κ)
    (kk : κ) :
    ∀ (xs : List α) (seen : List κ),
      (distinctByGo key seen xs).filter (fun a => key a = kk) =
        if kk ∈ seen then [] else
          (xs.filter (fun a => key a = kk)).take 1 := by
  intro xs
  induction xs with
  | nil => intro seen; by_cases h : kk ∈ seen <;> simp [distinctByGo, h]
  | cons x rest ih =>
    intro seen
    by_cases hx : key x ∈ seen
    · rw [distinctByGo, if_pos hx, ih seen]
      by_cases hk : kk ∈ seen
      · simp [hk]
      · have hne : ¬(key x = kk) := fun he => hk (he ▸ hx)
        simp [hk, List.filter_cons, hne]
    · rw [distinctByGo, if_neg hx]
      by_cases hxk : key x = kk
      · have hk : kk ∉ seen := fun hs => hx (hxk ▸ hs)
        have h1 : (distinctByGo key (key x :: seen) rest).filter
            (fun a => key a = kk) = [] := by
          rw [ih (key x :: seen), if_pos (by simp [hxk])]
        rw [List.filter_cons, if_pos (by simp [hxk]), h1, if_neg hk,
          List.filter_cons, if_pos (by simp [hxk])]
        simp
      · have hbx : ¬(decide (key x = kk) = true) := by simp [hxk]
        rw [List.filter_cons, if_neg hbx, ih (key x :: seen)]
        by_cases hk : kk ∈ seen
        · rw [if_pos (List.mem_cons_of_mem _ hk), if_pos hk]
        · have hnotin : kk ∉ key x :: seen := by
            intro h
            rcases List.mem_cons.mp h with h1 | h2
            · exact hxk h1.symm
            · exact hk h2
          rw [if_neg hnotin, if_neg hk, List.filter_cons, if_neg hbx]

/-- The keys of the deduplicated stream are pairwise distinct and avoid the
already-seen set. -/
theorem distinctByGo_keys {α κ : Type} [DecidableEq κ] (key : α → κ) :
    ∀ (xs : List α) (seen : List κ),
      ((distinctByGo key seen xs).map key).Nodup ∧
      ∀ kk ∈ (distinctByGo key seen xs).map key, kk ∉ seen := by
  intro xs
  induction xs with
  | nil => intro seen; simp [distinctByGo]
  | cons x rest ih =>
    intro seen
    by_cases hx : key x ∈ seen
    · rw [distinctByGo, if_pos hx]
      exact ih seen
    · have ihs := ih (key x :: seen)
      rw [distinctByGo, if_neg hx]
      constructor
      · rw [List.map_cons, List.nodup_cons]
        exact ⟨fun hmem => (ihs.2 (key x) hmem) (by simp), ihs.1⟩
      · intro kk hkk
        rcases List.mem_cons.mp hkk with h1 | h2
        · exact h1 ▸ hx
        · intro hs
          exact (ihs.2 kk h2) (List.mem_cons_of_mem _ hs)

/-- The keys of the public `packageJson$` projection form a sub-sequence of
the keys of the stream it projects. -/
theorem packageJsonChannel_keys_sub (realpath : String → String) :
    ∀ rs : List FindResult,
      List.Sublist
        ((packageJsonChannel rs).map fun d => DistinctKey.str (realpath d))
        (rs.map (getDistinctKeyForFindResult realpath)) := by
  intro rs
  induction rs with
  | nil => simp [packageJsonChannel]
  | cons r rest ih =>
    cases r with
    | err m =>
      rw [List.map_cons]
      refine List.Sublist.cons _ ?_
      simpa [packageJsonChannel] using ih
    | packageJson d =>
      rw [List.map_cons]
      have : packageJsonChannel (FindResult.packageJson d :: rest) =
          d :: packageJsonChannel rest := by
        simp [packageJsonChannel]
      rw [this, List.map_cons]
      exact List.Sublist.cons₂ _ ih
    | other t =>
      rw [List.map_cons]
      refine List.Sublist.cons _ ?_
      simpa [packageJsonChannel] using ih

/-- C6: deduplication keys a result by its error message, the
canonicalized directory path, or the result itself; the deduplicated
stream carries pairwise-distinct keys, keeps exactly the first input
occurrence of each key (later duplicates are dropped, producing nothing on
any channel), is a sub-sequence of the input, and consequently the
`packageJson$` projection emits each distinct canonical path exactly
once. -/
theorem dedup_first_occurrence (realpath : String → String)
    (xs : List FindResult) :
    ((dedupFindResults realpath xs).map
        (getDistinctKeyForFindResult realpath)).Nodup ∧
    (∀ kk : DistinctKey,
      (dedupFindResults realpath xs).filter
          (fun r => getDistinctKeyForFindResult realpath r = kk) =
        (xs.filter
          (fun r => getDistinctKeyForFindResult realpath r = kk)).take 1) ∧
    List.Sublist (dedupFindResults realpath xs) xs ∧
    ((packageJsonChannel (dedupFindResults realpath xs)).map realpath).Nodup := by
  refine ⟨(distinctByGo_keys _ xs []).1, ?_, distinctByGo_sublist _ xs [], ?_⟩
  · intro kk
    simpa using distinctByGo_filter (getDistinctKeyForFindResult realpath) kk xs []
  · have hsub := packageJsonChannel_keys_sub realpath (dedupFindResults realpath xs)
    have hnd := (distinctByGo_keys (getDistinctKeyForFindResult realpath) xs []).1
    have hmap : ((packageJsonChannel (dedupFindResults realpath xs)).map
        realpath).map DistinctKey.str =
        (packageJsonChannel (dedupFindResults realpath xs)).map
          fun d => DistinctKey.str (realpath d) := by
      simp [List.map_map, Function.comp]
    exact List.Nodup.of_map DistinctKey.str
      (by rw [hmap]; exact List.Nodup.sublist hsub hnd)

/-- Lookup over a cons cell of the association list. -/
theorem lookupGroup_cons {C : Type} (a : String) (g : List (PluginSpec C))
    (rest : List (String × List (PluginSpec C))) (j : String) :
    lookupGroup ((a, g) :: rest) j = if a = j then g else lookupGroup rest j := by
  by_cases h : a = j
  · simp [lookupGroup, List.find?_cons, h]
  · simp [lookupGroup, List.find?_cons, h]

/-- How one `groupSpecsById` insertion changes each lookup. -/
theorem lookupGroup_addToGroup {C : Type} (i : String) (s : PluginSpec C)
    (j : String) :
    ∀ m : List (String × List (PluginSpec C)),
      lookupGroup (addToGroup i s m) j =
        if i = j then lookupGroup m j ++ [s] else lookupGroup m j := by
  intro m
  induction m with
  | nil =>
    by_cases h : i = j
    · subst h; simp [addToGroup, lookupGroup, List.find?]
    · simp [addToGroup, lookupGroup, List.find?, h]
  | cons e rest ih =>
    obtain ⟨a, g⟩ := e
    by_cases hai : a = i
    · subst hai
      rw [addToGroup, if_pos rfl]
      by_cases haj : a = j
      · rw [lookupGroup_cons, if_pos haj, if_pos haj, lookupGroup_cons,
          if_pos haj]
      · rw [lookupGroup_cons, if_neg haj, if_neg haj, lookupGroup_cons,
          if_neg haj]
    · rw [addToGroup, if_neg hai]
      by_cases haj : a = j
      · have hij : ¬(i = j) := fun h => hai (haj ▸ h.symm ▸ rfl)
        rw [lookupGroup_cons, if_pos haj, if_neg hij, lookupGroup_cons,
          if_pos haj]
      · rw [lookupGroup_cons, if_neg haj, ih, lookupGroup_cons, if_neg haj]

/-- Folding the insertion step over a spec list appends, under each id, the
specs carrying that id in order. -/
theorem lookupGroup_fold {C : Type} (j : String) :
    ∀ (specs : List (PluginSpec C)) (m : List (String × List (PluginSpec C))),
      lookupGroup (specs.foldl (fun m2 s => addToGroup s.id s m2) m) j =
        lookupGroup m j ++ specs.filter (fun s => s.id = j) := by
  intro specs
  induction specs with
  | nil => intro m; simp
  | cons s rest ih =>
    intro m
    rw [List.foldl_cons, ih (addToGroup s.id s m), lookupGroup_addToGroup]
    by_cases h : s.id = j
    · rw [if_pos h, List.filter_cons, if_pos (by simp [h])]
      simp
    · rw [if_neg h, List.filter_cons, if_neg (by simp [h])]

/-- The group stored under an id is exactly the filter of the input specs
by that id, in input order. -/
theorem groupSpecsById_lookup {C : Type} (specs : List (PluginSpec C))
    (j : String) :
    lookupGroup (groupSpecsById specs) j =
      specs.filter (fun s => s.id = j) := by
  have h := lookupGroup_fold j specs []
  rw [groupSpecsById]
  rw [h]
  simp [lookupGroup, List.find?]

/-- How one insertion changes the key list. -/
theorem addToGroup_keys {C : Type} (i : String) (s : PluginSpec C) :
    ∀ m : List (String × List (PluginSpec C)),
      (addToGroup i s m).map Prod.fst =
        if i ∈ m.map Prod.fst then m.map Prod.fst
        else m.map Prod.fst ++ [i] := by
  intro m
  induction m with
  | nil => simp [addToGroup]
  | cons e rest ih =>
    obtain ⟨a, g⟩ := e
    by_cases h : a = i
    · subst h
      rw [addToGroup, if_pos rfl]
      simp
    · rw [addToGroup, if_neg h, List.map_cons, List.map_cons, ih]
      by_cases hmem : i ∈ rest.map Prod.fst
      · rw [if_pos hmem, if_pos (by simp [hmem])]
      · have : ¬ i ∈ (a, g).fst :: rest.map Prod.fst := by
          intro hx
          rcases List.mem_cons.mp hx with h1 | h2
          · exact h h1.symm
          · exact hmem h2
        rw [if_neg hmem, if_neg this]
        simp

/-- The keys of the grouping map are pairwise distinct. -/
theorem groupSpecsById_keys_nodup {C : Type} (specs : List (PluginSpec C)) :
    ((groupSpecsById specs).map Prod.fst).Nodup := by
  rw [groupSpecsById]
  suffices h : ∀ (l : List (PluginSpec C))
      (m : List (String × List (PluginSpec C))),
      (m.map Prod.fst).Nodup →
      ((l.foldl (fun m2 s => addToGroup s.id s m2) m).map Prod.fst).Nodup by
    exact h specs [] (by simp)
  intro l
  induction l with
  | nil => intro m hm; simpa using hm
  | cons s rest ih =>
    intro m hm
    rw [List.foldl_cons]
    refine ih (addToGroup s.id s m) ?_
    rw [addToGroup_keys]
    by_cases hmem : s.id ∈ m.map Prod.fst
    · rw [if_pos hmem]; exact hm
    · rw [if_neg hmem]
      simp [List.nodup_append, hm, hmem]

/-- With distinct keys, a member of the association list carries exactly
what lookup by its key returns. -/
theorem mem_group_eq_lookup {C : Type} :
    ∀ (m : List (String × List (PluginSpec C)))
      (e : String × List (PluginSpec C)),
      e ∈ m → (m.map Prod.fst).Nodup → e.2 = lookupGroup m e.1 := by
  intro m
  induction m with
  | nil => intro e he; cases he
  | cons f rest ih =>
    intro e he hnd
    obtain ⟨a, g⟩ := f
    rcases List.mem_cons.mp he with h1 | h2
    · subst h1
      rw [lookupGroup_cons, if_pos rfl]
    · have ha : a ∉ rest.map Prod.fst :=
        (List.nodup_cons.mp (by simpa using hnd)).1
      have he1 : e.1 ∈ rest.map Prod.fst := List.mem_map_of_mem Prod.fst h2
      have hne : ¬(a = e.1) := fun h => ha (h ▸ he1)
      rw [lookupGroup_cons, if_neg hne]
      exact ih e h2 (List.nodup_cons.mp (by simpa using hnd)).2

/-- Counting an id among the projected ids is measuring the filter by that
id. -/
theorem count_map_id {C : Type} :
    ∀ (l : List (PluginSpec C)) (a : String),
      (l.map (·.id)).count a = (l.filter (fun s => s.id = a)).length := by
  intro l a
  induction l with
  | nil => simp
  | cons s rest ih =>
    by_cases h : s.id = a
    · simp [List.count_cons, List.filter_cons, h, ih]
    · simp [List.count_cons, List.filter_cons, h, Ne.symm h, ih]

/-- A duplicated id makes the conflict scan find a group. -/
theorem conflict_of_dup {C : Type} (specs : List (PluginSpec C))
    (h : ¬ (specs.map (·.id)).Nodup) :
    ∃ g, findConflict (groupSpecsById specs) = some g := by
  rw [List.nodup_iff_count_le_one] at h
  push_neg at h
  obtain ⟨a, ha⟩ := h
  have hlen : 1 < (specs.filter (fun s => s.id = a)).length := by
    rw [← count_map_id]; exact ha
  have hlk := groupSpecsById_lookup specs a
  cases hf : (groupSpecsById specs).find? (fun e => e.1 = a) with
  | none =>
    rw [lookupGroup, hf] at hlk
    rw [← hlk] at hlen
    simp at hlen
  | some e =>
    have he2 : e.2 = specs.filter (fun s => s.id = a) := by
      rw [← hlk, lookupGroup, hf]
    have hp : 1 < e.2.length := he2 ▸ hlen
    have hmem : e ∈ groupSpecsById specs := List.mem_of_find?_eq_some hf
    have hsome : ((groupSpecsById specs).find?
        (fun g => g.2.length > 1)).isSome :=
      List.find?_isSome.mpr ⟨e, hmem, by simpa using hp⟩
    obtain ⟨g, hg⟩ := Option.isSome_iff_exists.mp hsome
    exact ⟨g, hg⟩

/-- The group the conflict scan reports holds more than one spec and is
exactly the filter of the input by its id. -/
theorem findConflict_props {C : Type} (specs : List (PluginSpec C))
    (g : String × List (PluginSpec C))
    (hf : findConflict (groupSpecsById specs) = some g) :
    1 < g.2.length ∧ g.2 = specs.filter (fun s => s.id = g.1) := by
  have hmem := List.mem_of_find?_eq_some hf
  have hp := List.find?_some hf
  have hl := mem_group_eq_lookup (groupSpecsById specs) g hmem
    (groupSpecsById_keys_nodup specs)
  rw [groupSpecsById_lookup] at hl
  exact ⟨by simpa using hp, hl⟩

/-- A needle is detected at the head of a haystack it leads. -/
theorem leadsWith_self_append (n rest : List Char) :
    leadsWith (n ++ rest) n = true := by
  induction n with
  | nil => simp [leadsWith]
  | cons c cs ih => simp [leadsWith, ih]

/-- A needle is detected inside any haystack that embeds it
contiguously. -/
theorem subOccurs_append (n a b : List Char) :
    subOccurs n (a ++ n ++ b) = true := by
  induction a with
  | nil =>
    cases hn : n with
    | nil => cases b <;> simp [subOccurs, leadsWith]
    | cons c cs =>
      simp only [List.nil_append, List.cons_append, subOccurs]
      have : leadsWith (c :: (cs ++ b)) (c :: cs) = true := by
        simpa using leadsWith_self_append (c :: cs) b
      simp [this]
  | cons c rest ih =>
    simp only [List.cons_append, subOccurs, Bool.or_eq_true]
    exact Or.inr (by simpa [List.append_assoc] using ih)

/-- Any contiguous decomposition of a string certifies `strNames`. -/
theorem strNames_of_decomp (hay needle : String) (A B : List Char)
    (h : hay.data = A ++ needle.data ++ B) : strNames hay needle = true := by
  rw [strNames, h]
  exact subOccurs_append needle.data A B

/-- A member of a joined line list occurs contiguously in the join. -/
theorem joinLines_mem_decomp :
    ∀ (l : List String) (x : String), x ∈ l →
      ∃ A B, (joinLines l).data = A ++ x.data ++ B := by
  intro l
  induction l with
  | nil => intro x hx; cases hx
  | cons y ys ih =>
    intro x hx
    cases ys with
    | nil =>
      have hxy : x = y := by simpa using hx
      exact ⟨[], [], by simp [joinLines, hxy]⟩
    | cons z zs =>
      rcases List.mem_cons.mp hx with h1 | h2
      · refine ⟨[], "\n".data ++ (joinLines (z :: zs)).data, ?_⟩
        simp [joinLines, String.data_append, h1, List.append_assoc]
      · obtain ⟨A, B, hAB⟩ := ih x h2
        refine ⟨y.data ++ "\n".data ++ A, B, ?_⟩
        simp [joinLines, String.data_append, hAB, List.append_assoc]

/-- C1 (amended): when two or more collected specs share an identifier the
run fails fatally with the duplicate-id error of the first conflicting
group — before any configuration mutation, witnessed by the outcome being
independent of the collaborators and of the initial configuration — and
that error message names the conflicting identifier and the path of every
spec in that first group. -/
theorem duplicate_id_aborts {C E : Type} (k : Collaborators C) (c : C)
    (rs : List (PackResult C E))
    (h : ¬ ((collectSpecs rs).map (·.id)).Nodup) :
    ∃ id grp,
      findConflict (groupSpecsById (collectSpecs rs)) = some (id, grp) ∧
      runExtendConfig k c rs = .error (duplicateIdError id grp) ∧
      1 < grp.length ∧
      (∀ s ∈ grp, s.id = id ∧ s ∈ collectSpecs rs) ∧
      strNames (duplicateIdError id grp) id = true ∧
      (∀ s ∈ grp, strNames (duplicateIdError id grp) s.path = true) ∧
      (∀ (k2 : Collaborators C) (c2 : C),
        runExtendConfig k2 c2 rs = .error (duplicateIdError id grp)) := by
  obtain ⟨g, hg⟩ := conflict_of_dup _ h
  obtain ⟨gid, grp⟩ := g
  obtain ⟨hlen, hfilter⟩ := findConflict_props _ _ hg
  dsimp only at hlen hfilter
  refine ⟨gid, grp, hg, ?_, hlen, ?_, ?_, ?_, ?_⟩
  · simp only [runExtendConfig, hg]
  · intro s hs
    rw [hfilter] at hs
    have := List.mem_filter.mp hs
    exact ⟨by simpa using this.2, this.1⟩
  · refine strNames_of_decomp _ _ "Multple plugins found with the id \"".data
      ("\":\n" ++ joinLines (grp.map fun s => "  - " ++ gid ++ " at " ++ s.path)).data ?_
    simp [duplicateIdError, String.data_append, List.append_assoc]
  · intro s hs
    have hline : ("  - " ++ gid ++ " at " ++ s.path) ∈
        grp.map (fun s2 => "  - " ++ gid ++ " at " ++ s2.path) :=
      List.mem_map_of_mem _ hs
    obtain ⟨A, B, hAB⟩ := joinLines_mem_decomp _ _ hline
    refine strNames_of_decomp _ _
      (("Multple plugins found with the id \"" ++ gid ++ "\":\n").data ++ A ++
        ("  - " ++ gid ++ " at ").data) B ?_
    simp [duplicateIdError, String.data_append, List.append_assoc] at hAB ⊢
    rw [hAB]
  · intro k2 c2
    simp only [runExtendConfig, hg]

/-- Witness for the duplicate-id claim at a concrete conflicting input. -/
theorem duplicate_id_aborts_witness :
    (¬ ((collectSpecs dupResults2).map (·.id)).Nodup) ∧
    (∃ id grp,
      findConflict (groupSpecsById (collectSpecs dupResults2)) =
        some (id, grp) ∧
      runExtendConfig sampleCollab 0 dupResults2 =
        .error (duplicateIdError id grp) ∧
      1 < grp.length ∧
      (∀ s ∈ grp, s.id = id ∧ s ∈ collectSpecs dupResults2) ∧
      strNames (duplicateIdError id grp) id = true ∧
      (∀ s ∈ grp, strNames (duplicateIdError id grp) s.path = true) ∧
      (∀ (k2 : Collaborators Nat) (c2 : Nat),
        runExtendConfig k2 c2 dupResults2 =
          .error (duplicateIdError id grp))) :=
  ⟨by decide, duplicate_id_aborts sampleCollab 0 dupResults2 (by decide)⟩

/-- Counterexample to C1 as stated: with two conflicting id groups ("a"
and "b"), the premise of the claim holds, yet the thrown message is the
one for group "a" only and does not name the path of the conflicting spec
`dupB2`. -/
theorem duplicate_id_message_incomplete :
    (¬ ((collectSpecs dupResults4).map (·.id)).Nodup) ∧
    dupB1.id = dupB2.id ∧
    ¬(dupB1.path = dupB2.path) ∧
    dupB2 ∈ collectSpecs dupResults4 ∧
    runExtendConfig sampleCollab 0 dupResults4 =
      .error (duplicateIdError "a" [dupA1, dupA2]) ∧
    strNames (duplicateIdError "a" [dupA1, dupA2]) dupB2.path = false := by
  refine ⟨by decide, rfl, by decide, ?_, rfl, by decide⟩
  simp [collectSpecs, dupResults4]

/-- The configuration after the extension phase is the fold of
`extendOne` over the specs. -/
theorem extendPhase_config {C : Type} (k : Collaborators C) :
    ∀ (l : List (PluginSpec C)) (c : C),
      (extendPhase k c l).1 =
        l.foldl (fun acc s => (k.extendOne s acc).1) c := by
  intro l
  induction l with
  | nil => intro c; rfl
  | cons s rest ih => intro c; simp [extendPhase, ih]

/-- The extension phase produces one `{spec, deprecations}` item per spec,
in order. -/
theorem extendPhase_items {C : Type} (k : Collaborators C) :
    ∀ (l : List (PluginSpec C)) (c : C),
      ((extendPhase k c l).2.1).map (·.spec) = l := by
  intro l
  induction l with
  | nil => intro c; rfl
  | cons s rest ih => intro c; simp [extendPhase, ih]

/-- The extension phase records one extension event per spec, in order. -/
theorem extendPhase_events {C : Type} (k : Collaborators C) :
    ∀ (l : List (PluginSpec C)) (c : C),
      (extendPhase k c l).2.2 = l.map fun s => RunEvent.extended s.id := by
  intro l
  induction l with
  | nil => intro c; rfl
  | cons s rest ih => intro c; simp [extendPhase, ih]

/-- The per-record disable loop folds `disableOne` over the listed
specs. -/
theorem disableSpecs_config {C : Type} (k : Collaborators C) :
    ∀ (l : List (PluginSpec C)) (c : C),
      (disableSpecs k c l).1 =
        l.foldl (fun acc s => k.disableOne s acc) c := by
  intro l
  induction l with
  | nil => intro c; rfl
  | cons s rest ih => intro c; simp [disableSpecs, ih]

/-- The per-record disable loop records one disable event per spec. -/
theorem disableSpecs_events {C : Type} (k : Collaborators C) :
    ∀ (l : List (PluginSpec C)) (c : C),
      (disableSpecs k c l).2 = l.map fun s => RunEvent.disabled s.id := by
  intro l
  induction l with
  | nil => intro c; rfl
  | cons s rest ih => intro c; simp [disableSpecs, ih]

/-- The rollback stage folds `disableOne` over the concatenation of every
record's `disabledSpecs`. -/
theorem disablePhase_config {C : Type} (k : Collaborators C) :
    ∀ (rsl : List (ClassifiedResult C)) (c : C),
      (disablePhase k c rsl).1 =
        (rsl.flatMap fun r => r.disabledSpecs).foldl
          (fun acc s => k.disableOne s acc) c := by
  intro rsl
  induction rsl with
  | nil => intro c; rfl
  | cons r rest ih =>
    intro c
    simp [disablePhase, ih, disableSpecs_config, List.foldl_append]

/-- The rollback stage records one disable event per disabled spec. -/
theorem disablePhase_events {C : Type} (k : Collaborators C) :
    ∀ (rsl : List (ClassifiedResult C)) (c : C),
      (disablePhase k c rsl).2 =
        (rsl.flatMap fun r => r.disabledSpecs).map
          fun s => RunEvent.disabled s.id := by
  intro rsl
  induction rsl with
  | nil => intro c; rfl
  | cons r rest ih =>
    intro c
    simp [disablePhase, ih, disableSpecs_events]

/-- The canonical shape of a conflict-free run. -/
theorem runExtendConfig_ok {C E : Type} (k : Collaborators C) (c : C)
    (rs : List (PackResult C E))
    (h : findConflict (groupSpecsById (collectSpecs rs)) = none) :
    runExtendConfig k c rs = .ok
      { records := (extendPhase k c (collectSpecs rs)).2.1.map
          (classifyOne k (extendPhase k c (collectSpecs rs)).1)
        finalConfig := (disablePhase k (extendPhase k c (collectSpecs rs)).1
          ((extendPhase k c (collectSpecs rs)).2.1.map
            (classifyOne k (extendPhase k c (collectSpecs rs)).1))).1
        trace := (extendPhase k c (collectSpecs rs)).2.2 ++
          ((extendPhase k c (collectSpecs rs)).2.1.map
            (classifyOne k (extendPhase k c (collectSpecs rs)).1)).map
            (fun r => RunEvent.classified r.spec.id) ++
          (disablePhase k (extendPhase k c (collectSpecs rs)).1
            ((extendPhase k c (collectSpecs rs)).2.1.map
              (classifyOne k (extendPhase k c (collectSpecs rs)).1))).2 } := by
  simp only [runExtendConfig, h]

/-- Lists of events drawn from the three successive stages are sorted by
stage. -/
theorem stage_pairwise (xs ys zs : List RunEvent)
    (hx : ∀ e ∈ xs, eventStage e = 0) (hy : ∀ e ∈ ys, eventStage e = 1)
    (hz : ∀ e ∈ zs, eventStage e = 2) :
    ((xs ++ ys ++ zs).map eventStage).Pairwise (· ≤ ·) := by
  have hconst : ∀ (l : List RunEvent) (n : Nat),
      (∀ e ∈ l, eventStage e = n) →
      (l.map eventStage).Pairwise (fun a b => a ≤ b) := by
    intro l
    induction l with
    | nil => intro n _; simp
    | cons e rest ih =>
      intro n hl
      rw [List.map_cons, List.pairwise_cons]
      constructor
      · intro b hb
        obtain ⟨e2, he2, rfl⟩ := List.mem_map.mp hb
        rw [hl e (by simp), hl e2 (by simp [he2])]
      · exact ih n fun e2 he2 => hl e2 (by simp [he2])
  rw [List.map_append, List.map_append, List.pairwise_append]
  refine ⟨?_, hconst zs 2 hz, ?_⟩
  · rw [List.pairwise_append]
    refine ⟨hconst xs 0 hx, hconst ys 1 hy, ?_⟩
    intro a ha b hb
    obtain ⟨ea, hea, rfl⟩ := List.mem_map.mp ha
    obtain ⟨eb, heb, rfl⟩ := List.mem_map.mp hb
    rw [hx ea hea, hy eb heb]
    exact Nat.le_succ 0
  · intro a ha b hb
    obtain ⟨eb, heb, rfl⟩ := List.mem_map.mp hb
    rw [hz eb heb]
    rcases List.mem_append.mp ha with h1 | h2
    · obtain ⟨ea, hea, rfl⟩ := List.mem_map.mp h1
      rw [hx ea hea]; exact Nat.zero_le 2
    · obtain ⟨ea, hea, rfl⟩ := List.mem_map.mp h2
      rw [hy ea hea]; exact Nat.le_succ 1

/-- C2: in every conflict-free run, all extension events precede all
enablement evaluations, which precede all disable events; every record is
classified against the configuration that every collected spec has already
extended; and the final configuration is that fully extended configuration
with every disabled spec's disable routine folded over it. -/
theorem run_barriers {C E : Type} (k : Collaborators C) (c : C)
    (rs : List (PackResult C E))
    (h : findConflict (groupSpecsById (collectSpecs rs)) = none) :
    ∃ out, runExtendConfig k c rs = .ok out ∧
      (∀ r ∈ out.records, r.config = fullyExtendedConfig k c rs) ∧
      out.finalConfig = (out.records.flatMap fun r => r.disabledSpecs).foldl
        (fun acc s => k.disableOne s acc) (fullyExtendedConfig k c rs) ∧
      out.trace = ((collectSpecs rs).map fun s => RunEvent.extended s.id) ++
        (out.records.map fun r => RunEvent.classified r.spec.id) ++
        ((out.records.flatMap fun r => r.disabledSpecs).map
          fun s => RunEvent.disabled s.id) ∧
      (out.trace.map eventStage).Pairwise (· ≤ ·) := by
  refine ⟨_, runExtendConfig_ok k c rs h, ?_, ?_, ?_, ?_⟩
  · intro r hr
    dsimp only at hr
    obtain ⟨item, hitem, rfl⟩ := List.mem_map.mp hr
    show (extendPhase k c (collectSpecs rs)).1 = _
    rw [extendPhase_config, fullyExtendedConfig]
  · dsimp only
    rw [disablePhase_config, extendPhase_config, fullyExtendedConfig]
  · dsimp only
    rw [extendPhase_events, disablePhase_events]
  · dsimp only
    rw [extendPhase_events, disablePhase_events]
    refine stage_pairwise _ _ _ ?_ ?_ ?_
    · intro e he
      obtain ⟨s, _, rfl⟩ := List.mem_map.mp he
      rfl
    · intro e he
      obtain ⟨r, _, rfl⟩ := List.mem_map.mp he
      rfl
    · intro e he
      obtain ⟨s, _, rfl⟩ := List.mem_map.mp he
      rfl

/-- Witness for the barrier claim at a concrete conflict-free input. -/
theorem run_barriers_witness :
    findConflict (groupSpecsById (collectSpecs sampleResults)) = none ∧
    (∃ out, runExtendConfig sampleCollab 2 sampleResults = .ok out ∧
      (∀ r ∈ out.records,
        r.config = fullyExtendedConfig sampleCollab 2 sampleResults) ∧
      out.finalConfig =
        (out.records.flatMap fun r => r.disabledSpecs).foldl
          (fun acc s => sampleCollab.disableOne s acc)
          (fullyExtendedConfig sampleCollab 2 sampleResults) ∧
      out.trace =
        ((collectSpecs sampleResults).map
          fun s => RunEvent.extended s.id) ++
        (out.records.map fun r => RunEvent.classified r.spec.id) ++
        ((out.records.flatMap fun r => r.disabledSpecs).map
          fun s => RunEvent.disabled s.id) ∧
      (out.trace.map eventStage).Pairwise (· ≤ ·)) :=
  ⟨rfl, run_barriers sampleCollab 2 sampleResults rfl⟩

/-- Flattening the `enabledSpecs` of classified records filters the specs
by the enablement conjunction. -/
theorem classified_enabled_flat {C : Type} (k : Collaborators C) (cfg : C) :
    ∀ items : List (ExtendedItem C),
      ((items.map (classifyOne k cfg)).flatMap fun r => r.enabledSpecs) =
        (items.map (·.spec)).filter (specEnabled k cfg) := by
  intro items
  induction items with
  | nil => rfl
  | cons it rest ih =>
    have he : (classifyOne k cfg it).enabledSpecs =
        if specEnabled k cfg it.spec then [it.spec] else [] := rfl
    simp only [List.map_cons, List.flatMap_cons, List.filter_cons]
    rw [ih, he]
    cases hb : specEnabled k cfg it.spec <;> simp [hb]

/-- Flattening the `disabledSpecs` of classified records filters the specs
by the negated enablement conjunction. -/
theorem classified_disabled_flat {C : Type} (k : Collaborators C) (cfg : C) :
    ∀ items : List (ExtendedItem C),
      ((items.map (classifyOne k cfg)).flatMap fun r => r.disabledSpecs) =
        (items.map (·.spec)).filter fun s => !specEnabled k cfg s := by
  intro items
  induction items with
  | nil => rfl
  | cons it rest ih =>
    have he : (classifyOne k cfg it).disabledSpecs =
        if specEnabled k cfg it.spec then [] else [it.spec] := rfl
    simp only [List.map_cons, List.flatMap_cons, List.filter_cons]
    rw [ih, he]
    cases hb : specEnabled k cfg it.spec <;> simp [hb]

/-- Flattening the `invalidVersionSpecs` of classified records filters the
specs by version incompatibility. -/
theorem classified_invalid_flat {C : Type} (k : Collaborators C) (cfg : C) :
    ∀ items : List (ExtendedItem C),
      ((items.map (classifyOne k cfg)).flatMap
          fun r => r.invalidVersionSpecs) =
        (items.map (·.spec)).filter
          fun s => !s.isVersionCompatible (k.getPkgVersion cfg) := by
  intro items
  induction items with
  | nil => rfl
  | cons it rest ih =>
    have he : (classifyOne k cfg it).invalidVersionSpecs =
        if it.spec.isVersionCompatible (k.getPkgVersion cfg) then []
        else [it.spec] := rfl
    simp only [List.map_cons, List.flatMap_cons, List.filter_cons]
    rw [ih, he]
    cases hb : it.spec.isVersionCompatible (k.getPkgVersion cfg) <;> simp [hb]

/-- C3: in every conflict-free run the enabled and disabled channels are
disjoint, together they carry exactly the surviving specs, and every
invalid-version spec is also a disabled spec. -/
theorem classification_partition {C E : Type} (k : Collaborators C) (c : C)
    (rs : List (PackResult C E))
    (h : findConflict (groupSpecsById (collectSpecs rs)) = none) :
    ∃ out, runExtendConfig k c rs = .ok out ∧
      (∀ s, s ∈ specOutput out → s ∉ disabledSpecOutput out) ∧
      List.Perm (specOutput out ++ disabledSpecOutput out)
        (collectSpecs rs) ∧
      (∀ s ∈ invalidVersionSpecOutput out, s ∈ disabledSpecOutput out) := by
  refine ⟨_, runExtendConfig_ok k c rs h, ?_, ?_, ?_⟩ <;>
    simp only [specOutput, disabledSpecOutput, invalidVersionSpecOutput]
  · intro s h1 h2
    rw [classified_enabled_flat] at h1
    rw [classified_disabled_flat] at h2
    have e1 := List.of_mem_filter h1
    have e2 := List.of_mem_filter h2
    rw [show specEnabled k (extendPhase k c (collectSpecs rs)).1 s = true
      from by simpa using e1] at e2
    simp at e2
  · rw [classified_enabled_flat, classified_disabled_flat,
      extendPhase_items]
    exact List.filter_append_perm _ (collectSpecs rs)
  · intro s hs
    rw [classified_invalid_flat] at hs
    rw [classified_disabled_flat]
    have hmem := List.mem_of_mem_filter hs
    have hcv := List.of_mem_filter hs
    refine List.mem_filter.mpr ⟨hmem, ?_⟩
    have hv : s.isVersionCompatible
        (k.getPkgVersion (extendPhase k c (collectSpecs rs)).1) = false := by
      simpa using hcv
    simp [specEnabled, hv]

/-- Witness for the partition claim at a concrete conflict-free input. -/
theorem classification_partition_witness :
    findConflict (groupSpecsById (collectSpecs sampleResults)) = none ∧
    (∃ out, runExtendConfig sampleCollab 4 sampleResults = .ok out ∧
      (∀ s, s ∈ specOutput out → s ∉ disabledSpecOutput out) ∧
      List.Perm (specOutput out ++ disabledSpecOutput out)
        (collectSpecs sampleResults) ∧
      (∀ s ∈ invalidVersionSpecOutput out, s ∈ disabledSpecOutput out)) :=
  ⟨rfl, classification_partition sampleCollab 4 sampleResults rfl⟩

/-- C4: in every conflict-free run each record is classified exactly by
`isRightVersion = spec.isVersionCompatible(config.get("pkg.version"))` and
`enabled = isRightVersion && spec.isEnabled(config)` against the fully
merged configuration, populating the three singleton-or-empty lists
accordingly. -/
theorem classification_formula {C E : Type} (k : Collaborators C) (c : C)
    (rs : List (PackResult C E))
    (h : findConflict (groupSpecsById (collectSpecs rs)) = none) :
    ∃ out, runExtendConfig k c rs = .ok out ∧
      out.records.map (·.spec) = collectSpecs rs ∧
      (∀ r ∈ out.records,
        r.config = fullyExtendedConfig k c rs ∧
        r.enabledSpecs =
          (if r.spec.isVersionCompatible
              (k.getPkgVersion (fullyExtendedConfig k c rs)) &&
              r.spec.isEnabled (fullyExtendedConfig k c rs)
            then [r.spec] else []) ∧
        r.disabledSpecs =
          (if r.spec.isVersionCompatible
              (k.getPkgVersion (fullyExtendedConfig k c rs)) &&
              r.spec.isEnabled (fullyExtendedConfig k c rs)
            then [] else [r.spec]) ∧
        r.invalidVersionSpecs =
          (if r.spec.isVersionCompatible
              (k.getPkgVersion (fullyExtendedConfig k c rs))
            then [] else [r.spec])) := by
  have hcfg : (extendPhase k c (collectSpecs rs)).1 =
      fullyExtendedConfig k c rs := by
    rw [extendPhase_config, fullyExtendedConfig]
  refine ⟨_, runExtendConfig_ok k c rs h, ?_, ?_⟩
  · dsimp only
    rw [List.map_map]
    exact extendPhase_items k (collectSpecs rs) c
  · intro r hr
    dsimp only at hr
    obtain ⟨item, hitem, rfl⟩ := List.mem_map.mp hr
    rw [hcfg]
    exact ⟨rfl, rfl, rfl, rfl⟩

/-- Witness for the classification-formula claim at a concrete input. -/
theorem classification_formula_witness :
    findConflict (groupSpecsById (collectSpecs sampleResults)) = none ∧
    (∃ out, runExtendConfig sampleCollab 6 sampleResults = .ok out ∧
      out.records.map (·.spec) = collectSpecs sampleResults ∧
      (∀ r ∈ out.records,
        r.config = fullyExtendedConfig sampleCollab 6 sampleResults ∧
        r.enabledSpecs =
          (if r.spec.isVersionCompatible
              (sampleCollab.getPkgVersion
                (fullyExtendedConfig sampleCollab 6 sampleResults)) &&
              r.spec.isEnabled
                (fullyExtendedConfig sampleCollab 6 sampleResults)
            then [r.spec] else []) ∧
        r.disabledSpecs =
          (if r.spec.isVersionCompatible
              (sampleCollab.getPkgVersion
                (fullyExtendedConfig sampleCollab 6 sampleResults)) &&
              r.spec.isEnabled
                (fullyExtendedConfig sampleCollab 6 sampleResults)
            then [] else [r.spec]) ∧
        r.invalidVersionSpecs =
          (if r.spec.isVersionCompatible
              (sampleCollab.getPkgVersion
                (fullyExtendedConfig sampleCollab 6 sampleResults))
            then [] else [r.spec]))) :=
  ⟨rfl, classification_formula sampleCollab 6 sampleResults rfl⟩

/-- A run without records leaves `last()` facing an empty source. -/
theorem extendedConfigOutput_eq_emptyError {C : Type} (out : RunOutput C)
    (h : out.records = []) :
    extendedConfigOutput out = ChannelOutcome.emptyError := by
  unfold extendedConfigOutput
  rw [h]

/-- A run with a record makes `mergeMap` reject the projected
configuration object. -/
theorem extendedConfigOutput_eq_typeError {C : Type} (out : RunOutput C)
    (h : out.records ≠ []) :
    extendedConfigOutput out = ChannelOutcome.typeError := by
  unfold extendedConfigOutput
  cases hrec : out.records with
  | nil => exact absurd hrec h
  | cons r rest => rfl

/-- The channel never emits a configuration value at all. -/
theorem extendedConfigOutput_ne_emits {C : Type} (out : RunOutput C)
    (v : C) : extendedConfigOutput out ≠ ChannelOutcome.emits v := by
  cases hrec : out.records with
  | nil =>
    rw [extendedConfigOutput_eq_emptyError out hrec]
    intro hh
    cases hh
  | cons r rest =>
    rw [extendedConfigOutput_eq_typeError out (by simp [hrec])]
    intro hh
    cases hh

/-- C5 (code bug): `extendedConfig$` never emits the configuration — in a
conflict-free run with no surviving spec the channel is empty and `last()`
signals `EmptyError`, and with any surviving record `mergeMap` signals a
`TypeError` on the projected configuration object — contradicting both
the claim and the code's own comment that the configuration is emitted
once fully extended. -/
theorem extendedConfig_never_emits {C E : Type} (k : Collaborators C)
    (c : C) (rs : List (PackResult C E))
    (h : findConflict (groupSpecsById (collectSpecs rs)) = none) :
    ∃ out, runExtendConfig k c rs = .ok out ∧
      (∀ v : C, extendedConfigOutput out ≠ ChannelOutcome.emits v) ∧
      (out.records = [] →
        extendedConfigOutput out = ChannelOutcome.emptyError) ∧
      (out.records ≠ [] →
        extendedConfigOutput out = ChannelOutcome.typeError) ∧
      (collectSpecs rs = [] → out.records = [] ∧ out.finalConfig = c ∧
        extendedConfigOutput out = ChannelOutcome.emptyError) := by
  refine ⟨_, runExtendConfig_ok k c rs h, ?_, ?_, ?_, ?_⟩
  · intro v
    exact extendedConfigOutput_ne_emits _ v
  · intro hnil
    exact extendedConfigOutput_eq_emptyError _ hnil
  · intro hne
    exact extendedConfigOutput_eq_typeError _ hne
  · intro hnil
    have hrec : ((extendPhase k c (collectSpecs rs)).2.1.map
        (classifyOne k (extendPhase k c (collectSpecs rs)).1)) = [] := by
      rw [hnil]
      rfl
    refine ⟨hrec, ?_, extendedConfigOutput_eq_emptyError _ hrec⟩
    dsimp only
    rw [hnil]
    rfl

/-- Witness for the `extendedConfig$` no-emission theorem at a concrete
conflict-free input carrying surviving specs. -/
theorem extendedConfig_never_emits_witness :
    findConflict (groupSpecsById (collectSpecs sampleResults)) = none ∧
    (∃ out, runExtendConfig sampleCollab 8 sampleResults = .ok out ∧
      (∀ v : Nat, extendedConfigOutput out ≠ ChannelOutcome.emits v) ∧
      (out.records = [] →
        extendedConfigOutput out = ChannelOutcome.emptyError) ∧
      (out.records ≠ [] →
        extendedConfigOutput out = ChannelOutcome.typeError) ∧
      (collectSpecs sampleResults = [] → out.records = [] ∧
        out.finalConfig = 8 ∧
        extendedConfigOutput out = ChannelOutcome.emptyError)) :=
  ⟨rfl, extendedConfig_never_emits sampleCollab 8 sampleResults rfl⟩

/-- Concrete evaluation at the claim's failing input: with zero configured
paths and zero scan directories the locator emits nothing, no specs
survive, the run succeeds with no records, and `extendedConfig$` ends in
`EmptyError` — no configuration is emitted; with a surviving record it
ends in `TypeError` instead, so in no case does the channel emit. -/
theorem empty_input_no_config_emission :
    mergedLocator (fun _ => []) (fun _ => []) [] [] = [] ∧
    dedupFindResults (fun p => p) [] = [] ∧
    runExtendConfig sampleCollab 7 ([] : List (PackResult Nat String)) =
      .ok { records := [], finalConfig := 7, trace := [] } ∧
    extendedConfigOutput (C := Nat)
      { records := [], finalConfig := 7, trace := [] } =
      ChannelOutcome.emptyError ∧
    (∀ v : Nat, extendedConfigOutput (C := Nat)
      { records := [], finalConfig := 7, trace := [] } ≠
        ChannelOutcome.emits v) ∧
    extendedConfigOutput (C := Nat)
      { records := [⟨7, alphaSpec, [], [alphaSpec], [], []⟩],
        finalConfig := 7, trace := [] } = ChannelOutcome.typeError := by
  refine ⟨rfl, rfl, rfl, rfl, ?_, rfl⟩
  intro v hv
  cases hv

end PluginDiscovery
